import Mathlib

/-!
Shallow embedding of the React/WordPress storefront repository
(`React_Wordpress`) for checking its natural-language specification.

The repository is a headless e-commerce storefront: React page components
issue GraphQL queries against WordPress/WooCommerce, plus bootstrap shell
scripts and PHP snippets.  The definitions below are translated directly
from the JavaScript / PHP / shell source files; theorems at the end settle
the spec claims about them.
-/

namespace ReactWP

/- ====================================================================
   §1  Generic JavaScript value model (used by several components)
   ==================================================================== -/

/-- JavaScript string truthiness: the empty string is falsy. -/
def jsTruthyStr (s : String) : Bool := s ≠ ""

/-- The JS idiom `x || null` applied to a nullable string: a falsy value
(`null`, `undefined`, `""`) is normalised to `null`. -/
def orNullStr : Option String → Option String
  | none => none
  | some s => if s = "" then none else some s

/-- A model of JSON values, as produced by `JSON.parse`. -/
inductive JVal
  | jnull
  | jstr (s : String)
  | jnum (n : Int)
  | jbool (b : Bool)
  | jarr (es : List JVal)
  | jobj (fs : List (String × JVal))

/-- Optional-chained field access `v?.f`: `undefined` (here `none`) on
anything that is not an object carrying the field. -/
def JVal.field : JVal → String → Option JVal
  | .jobj fs, k => (fs.find? (fun p => p.1 == k)).map Prod.snd
  | _, _ => none

/-- JavaScript truthiness of a JSON value. -/
def JVal.truthy : JVal → Bool
  | .jnull => false
  | .jstr s => s ≠ ""
  | .jnum n => n ≠ 0
  | .jbool b => b
  | .jarr _ => true
  | .jobj _ => true

mutual

/-- JavaScript `ToString` on a JSON value (as used by template literals). -/
def JVal.jsToString : JVal → String
  | .jnull => "null"
  | .jstr s => s
  | .jnum n => toString n
  | .jbool b => if b then "true" else "false"
  | .jarr es => String.intercalate "," (JVal.jsToStringList es)
  | .jobj _ => "[object Object]"

/-- `jsToString` mapped over a list of JSON values. -/
def JVal.jsToStringList : List JVal → List String
  | [] => []
  | e :: rest => e.jsToString :: JVal.jsToStringList rest

end

/- ====================================================================
   §2  `mapOrdering` — UI sort option → GraphQL orderby pair   (C5)

   Two copies exist in the source: one in the NewIphones page and one in
   the BudgetSmartphoneDeals page.  Both are translated verbatim.
   ==================================================================== -/

/-- `mapOrdering` from the NewIphones page (src/unnamed/part_002):
switch over the UI ordering string, defaults `("DATE", "DESC")`. -/
def mapOrderingNewIphones (ordering : String) : String × String :=
  if ordering = "-created_at" then ("DATE", "DESC")
  else if ordering = "new_price_ksh" then ("PRICE", "ASC")
  else if ordering = "-new_price_ksh" then ("PRICE", "DESC")
  else if ordering = "name" then ("TITLE", "ASC")
  else ("DATE", "DESC")

/-- `mapOrdering` from the BudgetSmartphoneDeals page (src/unnamed/part_003). -/
def mapOrderingBudget (ordering : String) : String × String :=
  if ordering = "created_at" then ("DATE", "ASC")
  else if ordering = "-created_at" then ("DATE", "DESC")
  else if ordering = "name" then ("TITLE", "ASC")
  else if ordering = "-name" then ("TITLE", "DESC")
  else if ordering = "price_min_ksh" then ("PRICE", "ASC")
  else if ordering = "-price_min_ksh" then ("PRICE", "DESC")
  else ("DATE", "DESC")

/- ====================================================================
   §3  Price normalisation (`money`, `normalize`)   (C6)

   `money` appears in two variants: the Laptops page (src/unnamed/part_000,
   `Ksh ${n.toLocaleString()}`, empty result `""`) and the
   BudgetSmartphoneDeals page (src/unnamed/part_003,
   `${n.toLocaleString()} KSh`, empty result `null`).
   `Number.toLocaleString` is an environment parameter `loc`.
   ==================================================================== -/

/-- Split a list on every occurrence of `sep` (like `String.split` /
`"a,b".split(",")`); always returns at least one chunk. -/
def splitOnElem {α : Type} [DecidableEq α] (sep : α) : List α → List (List α)
  | [] => [[]]
  | c :: rest =>
      let r := splitOnElem sep rest
      if c = sep then [] :: r
      else
        match r with
        | h :: t => (c :: h) :: t
        | [] => [[c]]

/-- `String(raw).replace(/[^\d.]/g, "")`: keep only digits and `'.'`. -/
def stripToDigitsDot (s : String) : String :=
  String.mk (s.toList.filter (fun c => c.isDigit || c = '.'))

/-- Decimal value of a digit list (most significant first). -/
def digitsToNat (cs : List Char) : Nat :=
  cs.foldl (fun a c => 10 * a + (c.toNat - 48)) 0

/-- JavaScript `Number()` on a string made only of digits and dots
(the only strings it is applied to after stripping): `""` is `0`,
one optional dot splits integer and fraction, a dot with no digits or
more than one dot is `NaN` (`none`). -/
def jsNum (s : String) : Option ℚ :=
  if ¬ (s.toList.all fun c => c.isDigit || c = '.') then none
  else
    match splitOnElem '.' s.toList with
    | [ip] => some (digitsToNat ip : ℚ)
    | [ip, fp] =>
        if ip = [] ∧ fp = [] then none
        else some ((digitsToNat ip : ℚ) + (digitsToNat fp : ℚ) / 10 ^ fp.length)
    | _ => none

/-- `money` from the Laptops page (src/unnamed/part_000 lines 69-73). -/
def moneyLaptops (loc : ℚ → String) (raw : Option String) : String :=
  match raw with
  | none => ""
  | some s =>
      if s = "" then ""
      else
        match jsNum (stripToDigitsDot s) with
        | none => s
        | some n => "Ksh " ++ loc n

/-- `money` from the BudgetSmartphoneDeals page (src/unnamed/part_003
lines 91-95): returns `null` for null/empty input. -/
def moneyBudget (loc : ℚ → String) (raw : Option String) : Option String :=
  match raw with
  | none => none
  | some s =>
      if s = "" then none
      else
        match jsNum (stripToDigitsDot s) with
        | none => some s
        | some n => some (loc n ++ " KSh")

/-- JS `a || b` on nullable strings. -/
def jsOrStr (a b : Option String) : Option String :=
  match a with
  | none => b
  | some s => if s = "" then b else some s

/-- First truthy element of a list of nullable strings (`x1 || x2 || …`). -/
def firstTruthyStr : List (Option String) → Option String
  | [] => none
  | x :: rest =>
      match orNullStr x with
      | some s => some s
      | none => firstTruthyStr rest

/-- The price-bearing fields of a product node as fetched by the Laptops
page list query. -/
structure LaptopNode where
  salePrice : Option String
  price : Option String
  regularPrice : Option String
  onSale : Bool

/-- Result shape of `normalize` restricted to the price fields. -/
structure LaptopView where
  price : String
  oldPrice : Option String

/-- `normalize` from the Laptops page (src/unnamed/part_000 lines 83-102),
restricted to its price fields:
`current = salePrice || price || regularPrice || null`,
`old = onSale && regularPrice ? regularPrice : null`,
`price: money(current)`, `oldPrice: old ? money(old) : null`. -/
def normalizeLaptops (loc : ℚ → String) (n : LaptopNode) : LaptopView :=
  let current := jsOrStr n.salePrice (jsOrStr n.price (jsOrStr n.regularPrice none))
  let old : Option String :=
    if n.onSale ∧ (orNullStr n.regularPrice).isSome then n.regularPrice else none
  { price := moneyLaptops loc current
    oldPrice :=
      match orNullStr old with
      | some o => some (moneyLaptops loc (some o))
      | none => none }

/- ====================================================================
   §4  Client-side filtering on BudgetSmartphoneDeals   (C7)

   (src/unnamed/part_003, `filtered` useMemo, lines 217-233)
   ==================================================================== -/

/-- Lowercase a string (JS `toLowerCase`, ASCII model). -/
def lcStr (s : String) : String := String.mk (s.toList.map Char.toLower)

/-- Uppercase a string (JS `toUpperCase`, ASCII model). -/
def ucStr (s : String) : String := String.mk (s.toList.map Char.toUpper)

/-- Boolean list-prefix test. -/
def isPrefixL : List Char → List Char → Bool
  | [], _ => true
  | _ :: _, [] => false
  | a :: as, b :: bs => a == b && isPrefixL as bs

/-- Boolean contiguous-sublist test, JS `hay.includes(need)`. -/
def isInfixL (need : List Char) : List Char → Bool
  | [] => isPrefixL need []
  | c :: t => isPrefixL need (c :: t) || isInfixL need t

/-- JS `hay.includes(needle)`. -/
def jsIncludes (hay needle : String) : Bool := isInfixL needle.toList hay.toList

/-- An item of the BudgetSmartphoneDeals grid as produced by the
normalisation `useMemo` (only the fields the filter reads). -/
structure BudgetItem where
  name : String
  brand : String
  category : String
  badge : String
  deriving DecidableEq

/-- The predicate of the `filtered` useMemo of BudgetSmartphoneDeals:
brand/badge match case-insensitively (or the filter is "All"), and the
search term is matched case-insensitively against name/brand/category
(empty entries removed by `.filter(Boolean)`). -/
def budgetFilterPred (brand badge search : String) (p : BudgetItem) : Bool :=
  let brandOk := brand == "All" || lcStr p.brand == lcStr brand
  let badgeOk := badge == "All" || ucStr p.badge == ucStr badge
  let searchOk := search == "" ||
    (([p.name, p.brand, p.category].filter (fun t => t != "")).any
      (fun t => jsIncludes (lcStr t) (lcStr search)))
  brandOk && badgeOk && searchOk

/-- `const filtered = items.filter(...)`. -/
def filteredBudget (brand badge search : String) (items : List BudgetItem) :
    List BudgetItem :=
  items.filter (budgetFilterPred brand badge search)

/- ====================================================================
   §5  localStorage auth state: Apollo auth link, Header, LoginForm
       (C3, C4)

   localStorage is a partial map `String → Option String`;
   `JSON.parse` is an environment parameter `parse : String → Option JVal`
   (`none` = throws) and `JSON.stringify` a parameter
   `stringify : JVal → String`.
   ==================================================================== -/

/-- `getAuthToken` from src/frontend/src/apolloClient.js lines 6-14:
read the `"wpjwt"` item, return `JSON.parse(raw)?.authToken || null`,
`null` on a missing/empty item or a parse exception. -/
def getAuthToken (parse : String → Option JVal)
    (store : String → Option String) : Option JVal :=
  match store "wpjwt" with
  | none => none
  | some raw =>
      if raw = "" then none
      else
        match parse raw with
        | none => none
        | some j =>
            match j.field "authToken" with
            | none => none
            | some v => if v.truthy then some v else none

/-- The `setContext` auth link of apolloClient.js lines 28-36: spread the
incoming headers and add `Authorization: Bearer <token>` when a token is
available. -/
def authLinkHeaders (parse : String → Option JVal)
    (store : String → Option String)
    (headers : String → Option String) : String → Option String :=
  match getAuthToken parse store with
  | none => headers
  | some v =>
      fun k => if k = "Authorization" then some ("Bearer " ++ v.jsToString) else headers k

/-- `readJWT` from Header.jsx lines 16-22:
`JSON.parse(localStorage.getItem("wpjwt") || "null")`, `null` on a parse
exception. -/
def readJWT (parse : String → Option JVal)
    (store : String → Option String) : Option JVal :=
  let raw :=
    match store "wpjwt" with
    | none => "null"
    | some s => if s = "" then "null" else s
  parse raw

/-- `getAccessToken` from Header.jsx: `readJWT()?.authToken || null`. -/
def getAccessToken (parse : String → Option JVal)
    (store : String → Option String) : Option JVal :=
  match readJWT parse store with
  | none => none
  | some j =>
      match j.field "authToken" with
      | none => none
      | some v => if v.truthy then some v else none

/-- `getUser` from Header.jsx: `readJWT()?.user || null`. -/
def getUserH (parse : String → Option JVal)
    (store : String → Option String) : Option JVal :=
  match readJWT parse store with
  | none => none
  | some j =>
      match j.field "user" with
      | none => none
      | some v => if v.truthy then some v else none

/-- `clearAuth` from Header.jsx lines 29-32:
`localStorage.removeItem("wpjwt")`. -/
def clearAuth (store : String → Option String) : String → Option String :=
  fun k => if k = "wpjwt" then none else store k

/-- The JSON object persisted by LoginForm.jsx lines 57-65. -/
def loginPayload (authToken refreshToken : String) (user : JVal) : JVal :=
  JVal.jobj [("authToken", JVal.jstr authToken),
             ("refreshToken", JVal.jstr refreshToken),
             ("user", user)]

/-- `localStorage.setItem("wpjwt", JSON.stringify({authToken,
refreshToken, user}))` from LoginForm.jsx `handleSubmit`. -/
def loginPersist (stringify : JVal → String)
    (store : String → Option String)
    (authToken refreshToken : String) (user : JVal) : String → Option String :=
  fun k =>
    if k = "wpjwt" then some (stringify (loginPayload authToken refreshToken user))
    else store k

/- ====================================================================
   §6  Header cart badge   (C10)

   (src/frontend/src/components/Header.jsx, `onCartUpdated` lines
   142-163 and `handleLogout` lines 207-211)
   ==================================================================== -/

/-- One entry of a `cart-updated` event's `items` payload. -/
structure CartEventItem where
  quantity : Option Int
  qty : Option Int

/-- The `detail` payload of a `cart-updated` event. -/
structure CartDetail where
  count : Option Int
  items : Option (List CartEventItem)
  delta : Option Int

/-- `Number(it?.quantity ?? it?.qty ?? 0) || 0`. -/
def itemQty (it : CartEventItem) : Int :=
  (it.quantity.orElse (fun _ => it.qty)).getD 0

/-- The `onCartUpdated` listener: a numeric `count` replaces the badge,
an `items` array replaces it with the summed quantities, a numeric
`delta` is applied as `Math.max(0, c + delta)`, otherwise the badge is
left as is (a refetch is triggered instead). -/
def onCartUpdated (c : Int) (d : CartDetail) : Int :=
  match d.count with
  | some n => n
  | none =>
      match d.items with
      | some its => its.foldl (fun acc it => acc + itemQty it) 0
      | none =>
          match d.delta with
          | some dl => max 0 (c + dl)
          | none => c

/-- Events that can change the Header badge. -/
inductive HeaderEvent
  | cartUpdated (d : CartDetail)
  | logout

/-- Badge update for one event (`handleLogout` sets the badge to 0). -/
def headerStep (c : Int) : HeaderEvent → Int
  | .cartUpdated d => onCartUpdated c d
  | .logout => 0

/-- A `cart-updated` payload as the app produces it: server item counts
and item quantities are non-negative. -/
def detailWF (d : CartDetail) : Prop :=
  (∀ n, d.count = some n → 0 ≤ n) ∧
  (∀ its it, d.items = some its → it ∈ its → 0 ≤ itemQty it)

/- ====================================================================
   §7  Per-request error handling   (C2)

   Each GraphQL request handler is embedded as a function from the
   request outcome to the ordered list of user-visible effects it
   performs (one `attempt` per issued operation).  Sources:
   - src/unnamed/part_000 `handleAddToCart` (toast on error),
   - src/frontend/src/components/Cart.jsx `onInc`/`onDec`/`onRemove`
     (console.error + refetch on error, no toast),
   - src/frontend/src/components/LoginForm.jsx `handleSubmit`
     (toast on error).
   ==================================================================== -/

/-- Outcome of the awaited GraphQL operation: resolved, or rejected with
an optional error message (`e?.message`). -/
inductive Outcome
  | ok
  | fail (msg : Option String)

/-- User-visible effects performed by a handler, in order. -/
inductive Effect
  | attempt (op : String)
  | toastSuccess (msg : String)
  | toastError (msg : String)
  | consoleError
  | dispatchEvent (name : String)
  | refetchQuery (q : String)
  | setState

/-- `e?.message || fallback`. -/
def errMsg (m : Option String) (fallback : String) : String :=
  (jsOrStr m (some fallback)).getD ""

/-- The handlers the claim quantifies over. -/
inductive Handler
  | laptopsAdd
  | cartInc
  | cartDec (qty : Int)
  | cartRemove
  | login (identifier password : String)

/-- Effect trace of each handler, translated from its try/catch/finally
structure in the source. -/
def runHandler : Handler → Outcome → List Effect
  | .laptopsAdd, .ok =>
      [.setState, .attempt "addToCart", .dispatchEvent "cart-updated",
       .toastSuccess "added to cart", .setState]
  | .laptopsAdd, .fail m =>
      [.setState, .attempt "addToCart",
       .toastError (errMsg m "Failed to add to cart"), .setState]
  | .cartInc, .ok =>
      [.setState, .attempt "updateItemQuantities", .dispatchEvent "cart-updated",
       .refetchQuery "GetCart", .setState]
  | .cartInc, .fail _ =>
      [.setState, .attempt "updateItemQuantities", .consoleError,
       .refetchQuery "GetCart", .setState]
  | .cartDec qty, .ok =>
      [.setState,
       .attempt (if qty - 1 ≤ 0 then "removeItemsFromCart" else "updateItemQuantities"),
       .dispatchEvent "cart-updated", .refetchQuery "GetCart", .setState]
  | .cartDec qty, .fail _ =>
      [.setState,
       .attempt (if qty - 1 ≤ 0 then "removeItemsFromCart" else "updateItemQuantities"),
       .consoleError, .refetchQuery "GetCart", .setState]
  | .cartRemove, .ok =>
      [.setState, .attempt "removeItemsFromCart", .dispatchEvent "cart-updated",
       .refetchQuery "GetCart", .setState]
  | .cartRemove, .fail _ =>
      [.setState, .attempt "removeItemsFromCart", .consoleError,
       .refetchQuery "GetCart", .setState]
  | .login idf pw, o =>
      if idf = "" ∨ pw = "" then
        [.setState, .toastError "Please enter your username/email and password."]
      else
        match o with
        | .ok =>
            [.setState, .attempt "login", .setState, .dispatchEvent "auth-changed",
             .toastSuccess "Login successful!"]
        | .fail m =>
            [.setState, .attempt "login", .setState,
             .toastError (errMsg m "Invalid credentials. Please try again.")]

/-- Number of operation attempts in a trace. -/
def countAttempts (l : List Effect) : Nat :=
  l.countP (fun e => match e with | .attempt _ => true | _ => false)

/-- Whether a trace contains an error toast. -/
def hasToastError (l : List Effect) : Bool :=
  l.any (fun e => match e with | .toastError _ => true | _ => false)

/-- Whether a trace contains a console.error. -/
def hasConsoleError (l : List Effect) : Bool :=
  l.any (fun e => match e with | .consoleError => true | _ => false)

/- ====================================================================
   §8  Cursor-stack pagination   (C1)

   (NewIphones, src/unnamed/part_002 lines 146-271; BudgetSmartphoneDeals,
   src/unnamed/part_003 lines 152-278 — identical bookkeeping)

   The component state is `page` (1-based), `endCursorStack` (index =
   page−1, initially `[null]`), and the last server `pageInfo`.  `goNext`
   and `goPrev` return the new state together with the `after` cursor of
   the query they issue (`none` = no query, `some c` = query with cursor
   `c`, where `c = none` is GraphQL `null`).
   ==================================================================== -/

/-- The `products.pageInfo` of the last GraphQL response. -/
structure PageInfo where
  hasNextPage : Bool
  endCursor : Option String

/-- Pagination-relevant state of a listing page component. -/
structure ListState where
  page : Nat
  endCursorStack : List (Option String)
  info : PageInfo
  search : String
  ordering : String

/-- JS array assignment `a[i] = v`: pads with holes (`undefined`, here
`none`) when `i` is beyond the end. -/
def jsSetIdx : List (Option String) → Nat → Option String → List (Option String)
  | [], 0, v => [v]
  | [], i + 1, v => none :: jsSetIdx [] i v
  | _ :: xs, 0, v => v :: xs
  | x :: xs, i + 1, v => x :: jsSetIdx xs i v

/-- The `after` variable of the `useQuery` for the current page:
`endCursorStack[page - 1] || null`. -/
def queryAfter (s : ListState) : Option String :=
  orNullStr (s.endCursorStack.getD (s.page - 1) none)

/-- `goNext`: no-op unless `hasNextPage`; otherwise store the current
`endCursor || null` at stack index `page`, increment `page`, and issue
`fetchMore` with that cursor.  `resp` is the server's new pageInfo. -/
def goNext (s : ListState) (resp : PageInfo) : ListState × Option (Option String) :=
  if s.info.hasNextPage then
    let after := orNullStr s.info.endCursor
    ({ s with
        endCursorStack := jsSetIdx s.endCursorStack s.page after
        page := s.page + 1
        info := resp }, some after)
  else (s, none)

/-- `goPrev`: no-op unless `page > 1`; otherwise re-query with
`endCursorStack[max(0, page-2)] || null` and set `page := max(1, page-1)`. -/
def goPrev (s : ListState) (resp : PageInfo) : ListState × Option (Option String) :=
  if 1 < s.page then
    let after := orNullStr (s.endCursorStack.getD (max 0 (s.page - 2)) none)
    ({ s with page := max 1 (s.page - 1), info := resp }, some after)
  else (s, none)

/-- The filter/search/ordering-change effect: reset `page` to 1 and the
stack to `[null]`, refetch with `after: null`. -/
def resetFilters (s : ListState) (newSearch newOrdering : String)
    (resp : PageInfo) : ListState :=
  { page := 1, endCursorStack := [none], info := resp,
    search := newSearch, ordering := newOrdering }

/-- States reachable from the initial mount (`page = 1`,
`endCursorStack = [null]`) under user pagination and filter changes,
with arbitrary server responses. -/
inductive Reach : ListState → Prop
  | init (info : PageInfo) (search ordering : String) :
      Reach { page := 1, endCursorStack := [none], info := info,
              search := search, ordering := ordering }
  | next (s : ListState) (resp : PageInfo) : Reach s → Reach (goNext s resp).1
  | prev (s : ListState) (resp : PageInfo) : Reach s → Reach (goPrev s resp).1
  | reset (s : ListState) (q o : String) (resp : PageInfo) :
      Reach s → Reach (resetFilters s q o resp)

/- ====================================================================
   §9  Container bootstrap script   (C9)

   (src/docker-entrypoint-custom.sh lines 8-74, the first script in the
   file.)  The script is modelled as the ordered trace of its visible
   steps given an environment: DB reachability per attempt, whether
   WordPress is installed, WP_HOME/WP_SITEURL, the WP_PLUGINS word list,
   and which plugin slugs are installed.  The wait loop is run with fuel;
   `none` means the loop is still spinning (DB never became reachable).
   ==================================================================== -/

/-- Observable steps of the bootstrap script, in execution order. -/
inductive BootEv
  | probe (ok : Bool)
  | sleep
  | fixPerms
  | configCreate
  | coreInstall
  | optionUpdate (name : String)
  | pluginActivate (slug : String)
  | pluginSkip (slug : String)
  | rewriteStructure
  | rewriteFlush
  | fixPermsFinal
  | execOrig
  deriving DecidableEq

/-- Environment the script runs against. -/
structure BootEnv where
  dbUp : Nat → Bool
  installed : Bool
  wpHome : Option String
  wpSiteurl : Option String
  plugins : List String
  pluginInstalled : String → Bool

/-- The `until php -r '…fsockopen…'; do sleep 2; done` wait loop: probe
attempt `k`, sleep on failure, stop on the first success. -/
def waitDb (db : Nat → Bool) : Nat → Nat → Option (List BootEv)
  | _, 0 => none
  | k, fuel + 1 =>
      if db k then some [.probe true]
      else (waitDb db (k + 1) fuel).map (fun tr => .probe false :: .sleep :: tr)

/-- `if ! $WP core is-installed; then wp config create; wp core install; fi`. -/
def installEvents (env : BootEnv) : List BootEv :=
  if env.installed then [] else [.configCreate, .coreInstall]

/-- The two guarded `wp option update` calls. -/
def optionEvents (env : BootEnv) : List BootEv :=
  (match env.wpHome with
    | some _ => [BootEv.optionUpdate "home"]
    | none => []) ++
  (match env.wpSiteurl with
    | some _ => [BootEv.optionUpdate "siteurl"]
    | none => [])

/-- The `for slug in ${WP_PLUGINS}` loop: activate installed slugs, warn
and skip the rest. -/
def pluginEvents (env : BootEnv) : List BootEv :=
  env.plugins.map
    (fun s => if env.pluginInstalled s then BootEv.pluginActivate s else BootEv.pluginSkip s)

/-- Rewrite structure/flush, the final chown, and the exec of the
original entrypoint. -/
def tailEvents : List BootEv :=
  [.rewriteStructure, .rewriteFlush, .fixPermsFinal, .execOrig]

/-- Full trace of the bootstrap script. -/
def bootTrace (env : BootEnv) (fuel : Nat) : Option (List BootEv) :=
  (waitDb env.dbUp 0 fuel).map (fun w =>
    w ++ [BootEv.fixPerms] ++ installEvents env ++ optionEvents env
      ++ pluginEvents env ++ tailEvents)

/- ====================================================================
   §10  Password-reset link round trip   (C8)

   WordPress side: `hrl_build_frontend_reset_url` (src/unnamed/part_004,
   `http_build_query(..., PHP_QUERY_RFC3986)` over a base URL stripped of
   trailing slashes) and the WooCommerce email template
   (src/unnamed/part_005, `add_query_arg` with a `rawurlencode`d login).
   Frontend side: ResetPassword (src/unnamed/part_001) reads
   `params.get("key") / params.get("login")` via `URLSearchParams` and
   passes them unchanged to the `resetUserPassword` mutation.

   Strings are modelled as byte lists (PHP strings are byte strings, and
   percent-encoding operates on bytes).
   ==================================================================== -/

/-- ASCII bytes of a Lean string literal. -/
def strBytes (s : String) : List Nat := s.toList.map Char.toNat

/-- RFC 3986 unreserved bytes: ALPHA / DIGIT / "-" / "." / "_" / "~". -/
def isUnreservedByte (b : Nat) : Bool :=
  (48 ≤ b && b ≤ 57) || (65 ≤ b && b ≤ 90) || (97 ≤ b && b ≤ 122) ||
    b == 45 || b == 46 || b == 95 || b == 126

/-- Upper-case hex digit of a nibble, as a byte. -/
def hexDigitByte (n : Nat) : Nat := if n < 10 then 48 + n else 55 + n

/-- `%HH` percent-escape of one byte. -/
def pctEncByte (b : Nat) : List Nat := [37, hexDigitByte (b / 16), hexDigitByte (b % 16)]

/-- PHP `rawurlencode` (RFC 3986): keep unreserved bytes, escape the rest. -/
def rawurlencode : List Nat → List Nat
  | [] => []
  | b :: rest =>
      (if isUnreservedByte b then [b] else pctEncByte b) ++ rawurlencode rest

/-- Value of an ASCII hex digit. -/
def hexVal (c : Nat) : Option Nat :=
  if 48 ≤ c ∧ c ≤ 57 then some (c - 48)
  else if 65 ≤ c ∧ c ≤ 70 then some (c - 55)
  else if 97 ≤ c ∧ c ≤ 102 then some (c - 87)
  else none

/-- `URLSearchParams` component decoding: `+` becomes a space and `%HH`
is percent-decoded; malformed escapes pass through. -/
def urlDecode : List Nat → List Nat
  | [] => []
  | 37 :: a :: b :: rest2 =>
      match hexVal a, hexVal b with
      | some x, some y => (16 * x + y) :: urlDecode rest2
      | _, _ => 37 :: urlDecode (a :: b :: rest2)
  | 43 :: rest => 32 :: urlDecode rest
  | c :: rest => c :: urlDecode rest

/-- Split at the first occurrence of `sep`; the whole list (and an empty
remainder) when `sep` does not occur. -/
def splitFirst (sep : Nat) : List Nat → List Nat × List Nat
  | [] => ([], [])
  | c :: rest =>
      if c = sep then ([], rest)
      else
        let p := splitFirst sep rest
        (c :: p.1, p.2)

/-- `URLSearchParams` pair list of a query string: split on `&`, then on
the first `=` of each chunk. -/
def queryPairs (qs : List Nat) : List (List Nat × List Nat) :=
  (splitOnElem 38 qs).map (splitFirst 61)

/-- `params.get(name)`: first pair whose decoded name matches, decoded. -/
def getParam (name : List Nat) (qs : List Nat) : Option (List Nat) :=
  ((queryPairs qs).find? (fun p => urlDecode p.1 == name)).map
    (fun p => urlDecode p.2)

/-- The query part of a URL (everything after the first `?`), i.e. what
`useSearchParams` parses. -/
def queryOf (url : List Nat) : List Nat := (splitFirst 63 url).2

/-- PHP whitespace trimmed by `trim`. -/
def isPhpSpace (b : Nat) : Bool :=
  b == 32 || b == 9 || b == 10 || b == 13 || b == 0 || b == 11

/-- `trim($url)` on bytes. -/
def phpTrim (bs : List Nat) : List Nat :=
  ((bs.dropWhile isPhpSpace).reverse.dropWhile isPhpSpace).reverse

/-- `rtrim($url, '/')` on bytes. -/
def phpRtrimSlash (bs : List Nat) : List Nat :=
  (bs.reverse.dropWhile (fun b => b == 47)).reverse

/-- `hrl_get_frontend_url` normalisation (part_004 lines 29-32): trim,
then strip trailing slashes, applied to the resolved frontend URL. -/
def hrlGetFrontendUrl (url : List Nat) : List Nat :=
  phpRtrimSlash (phpTrim url)

/-- `http_build_query(array('key' => $key, 'login' => $login), '', '&',
PHP_QUERY_RFC3986)`. -/
def httpBuildQueryKeyLogin (key login : List Nat) : List Nat :=
  strBytes "key=" ++ rawurlencode key ++ [38] ++ strBytes "login=" ++ rawurlencode login

/-- `hrl_build_frontend_reset_url` (part_004 lines 38-48). -/
def hrlBuildFrontendResetUrl (base key login : List Nat) : List Nat :=
  hrlGetFrontendUrl base ++ strBytes "/reset-password" ++ [63]
    ++ httpBuildQueryKeyLogin key login

/-- `$reset_link` of the WooCommerce email template (part_005 lines
16-24): `add_query_arg` inserts the values verbatim, with only the login
pre-encoded by `rawurlencode`. -/
def wooResetLink (key login : List Nat) : List Nat :=
  strBytes "http://localhost:5173/reset-password" ++ [63]
    ++ strBytes "key=" ++ key ++ [38] ++ strBytes "login=" ++ rawurlencode login

/-- `params.get("key") || ""` of the ResetPassword page. -/
def resetPageKey (url : List Nat) : List Nat :=
  (getParam (strBytes "key") (queryOf url)).getD []

/-- `params.get("login") || ""` of the ResetPassword page. -/
def resetPageLogin (url : List Nat) : List Nat :=
  (getParam (strBytes "login") (queryOf url)).getD []

/-- Variables of the `resetUserPassword` mutation. -/
structure ResetVars where
  key : List Nat
  login : List Nat
  password : List Nat
  deriving DecidableEq

/-- `submit` of the ResetPassword page: bail out with a toast when the
two password fields differ, otherwise call the mutation with the key and
login from the URL, unchanged. -/
def resetSubmit (key login pwd confirm : List Nat) : Option ResetVars :=
  if pwd ≠ confirm then none else some ⟨key, login, pwd⟩

end ReactWP

namespace ReactWP

/-- C5: every output field is one of DATE/PRICE/TITLE and every order one
of ASC/DESC, for both copies of `mapOrdering`; every string outside the
recognised cases of each copy (in particular the empty string) maps to
the default `("DATE", "DESC")`; and the particular recognised mappings
named by the claim hold. -/
theorem mapOrdering_total_and_cases (s : String) :
    ((mapOrderingNewIphones s).1 = "DATE" ∨ (mapOrderingNewIphones s).1 = "PRICE" ∨
       (mapOrderingNewIphones s).1 = "TITLE")
    ∧ ((mapOrderingNewIphones s).2 = "ASC" ∨ (mapOrderingNewIphones s).2 = "DESC")
    ∧ ((mapOrderingBudget s).1 = "DATE" ∨ (mapOrderingBudget s).1 = "PRICE" ∨
       (mapOrderingBudget s).1 = "TITLE")
    ∧ ((mapOrderingBudget s).2 = "ASC" ∨ (mapOrderingBudget s).2 = "DESC")
    ∧ (s ≠ "-created_at" → s ≠ "new_price_ksh" → s ≠ "-new_price_ksh" →
        s ≠ "name" → mapOrderingNewIphones s = ("DATE", "DESC"))
    ∧ (s ≠ "created_at" → s ≠ "-created_at" → s ≠ "name" → s ≠ "-name" →
        s ≠ "price_min_ksh" → s ≠ "-price_min_ksh" →
        mapOrderingBudget s = ("DATE", "DESC"))
    ∧ mapOrderingNewIphones "name" = ("TITLE", "ASC")
    ∧ mapOrderingBudget "name" = ("TITLE", "ASC")
    ∧ mapOrderingNewIphones "-created_at" = ("DATE", "DESC")
    ∧ mapOrderingBudget "-created_at" = ("DATE", "DESC")
    ∧ mapOrderingNewIphones "new_price_ksh" = ("PRICE", "ASC")
    ∧ mapOrderingBudget "price_min_ksh" = ("PRICE", "ASC")
    ∧ mapOrderingNewIphones "-new_price_ksh" = ("PRICE", "DESC")
    ∧ mapOrderingBudget "-price_min_ksh" = ("PRICE", "DESC")
    ∧ mapOrderingNewIphones "" = ("DATE", "DESC")
    ∧ mapOrderingBudget "" = ("DATE", "DESC") := by
  refine ⟨?_, ?_, ?_, ?_, ?_, ?_, rfl, rfl, rfl, rfl, rfl, rfl, rfl, rfl, rfl, rfl⟩
  · unfold mapOrderingNewIphones
    (repeat' split) <;> simp
  · unfold mapOrderingNewIphones
    (repeat' split) <;> simp
  · unfold mapOrderingBudget
    (repeat' split) <;> simp
  · unfold mapOrderingBudget
    (repeat' split) <;> simp
  · intro h1 h2 h3 h4
    simp [mapOrderingNewIphones, h1, h2, h3, h4]
  · intro h1 h2 h3 h4 h5 h6
    simp [mapOrderingBudget, h1, h2, h3, h4, h5, h6]

/-- Witness for C5: the unrecognised string `"zzz"` maps to the default
in both copies of `mapOrdering`. -/
theorem mapOrdering_total_and_cases_witness :
    mapOrderingNewIphones "zzz" = ("DATE", "DESC")
    ∧ mapOrderingBudget "zzz" = ("DATE", "DESC") := by
  have h := mapOrdering_total_and_cases "zzz"
  exact ⟨h.2.2.2.2.1 (by decide) (by decide) (by decide) (by decide),
         h.2.2.2.2.2.1 (by decide) (by decide) (by decide) (by decide)
           (by decide) (by decide)⟩

/-- Inverting `x || null = some r`: `x` holds `r` and `r` is non-empty. -/
lemma orNullStr_eq_some {x : Option String} {r : String}
    (h : orNullStr x = some r) : x = some r ∧ r ≠ "" := by
  cases x with
  | none => simp [orNullStr] at h
  | some t =>
      by_cases ht : t = "" <;> simp [orNullStr, ht] at h
      subst h; exact ⟨rfl, ht⟩

/-- The chain `a || b || c || null` picks the first truthy entry. -/
lemma firstTruthyStr_three (a b c : Option String) :
    firstTruthyStr [a, b, c] = jsOrStr a (jsOrStr b (jsOrStr c none)) := by
  cases a <;> cases b <;> cases c <;>
    simp [firstTruthyStr, jsOrStr, orNullStr] <;>
    (repeat' split) <;> simp_all

/-- C6: price normalisation.  `moneyLaptops`/`moneyBudget` yield the empty
display value on null/empty input; on other input they strip everything
but digits and `'.'` and, when the remainder parses as a number `q`,
display `loc q` with the Ksh marker, otherwise return the raw string
unchanged.  `normalize` derives the displayed price from the first truthy
of salePrice/price/regularPrice and produces a crossed-out old price only
when `onSale` holds and `regularPrice` is set. -/
theorem price_normalization (loc : ℚ → String) (n : LaptopNode) (s : String) (q : ℚ) :
    (moneyLaptops loc none = "" ∧ moneyLaptops loc (some "") = ""
      ∧ moneyBudget loc none = none ∧ moneyBudget loc (some "") = none)
    ∧ (s ≠ "" → jsNum (stripToDigitsDot s) = some q →
        moneyLaptops loc (some s) = "Ksh " ++ loc q ∧
        moneyBudget loc (some s) = some (loc q ++ " KSh"))
    ∧ (s ≠ "" → jsNum (stripToDigitsDot s) = none →
        moneyLaptops loc (some s) = s ∧ moneyBudget loc (some s) = some s)
    ∧ (normalizeLaptops loc n).price
        = moneyLaptops loc (firstTruthyStr [n.salePrice, n.price, n.regularPrice])
    ∧ ((normalizeLaptops loc n).oldPrice ≠ none →
        n.onSale = true ∧ orNullStr n.regularPrice ≠ none)
    ∧ (n.onSale = true → orNullStr n.regularPrice ≠ none →
        (normalizeLaptops loc n).oldPrice = some (moneyLaptops loc n.regularPrice)) := by
  refine ⟨⟨rfl, rfl, rfl, rfl⟩, ?_, ?_, ?_, ?_, ?_⟩
  · intro hs hq
    simp [moneyLaptops, moneyBudget, hs, hq]
  · intro hs hq
    simp [moneyLaptops, moneyBudget, hs, hq]
  · simp only [normalizeLaptops]
    rw [firstTruthyStr_three]
  · intro h
    by_cases ho : n.onSale = true ∧ (orNullStr n.regularPrice).isSome = true
    · exact ⟨ho.1, Option.isSome_iff_ne_none.mp ho.2⟩
    · exfalso
      apply h
      simp only [normalizeLaptops]
      rw [if_neg ho]
      rfl
  · intro h1 h2
    obtain ⟨r, hr⟩ := Option.ne_none_iff_exists'.mp h2
    obtain ⟨hreg, hrne⟩ := orNullStr_eq_some hr
    have hcond : n.onSale = true ∧ (orNullStr n.regularPrice).isSome = true :=
      ⟨h1, by rw [hr]; rfl⟩
    simp only [normalizeLaptops]
    rw [if_pos hcond, hr, hreg]

/-- Witness for C6 at a concrete WooCommerce-style price string. -/
theorem price_normalization_witness :
    moneyLaptops (fun _ => "1,250") (some "KSh 1,250") = "Ksh 1,250" ∧
    moneyBudget (fun _ => "1,250") (some "KSh 1,250") = some "1,250 KSh" := by
  have h := (price_normalization (fun _ => "1,250")
      ⟨none, none, none, false⟩ "KSh 1,250" 1250).2.1 (by decide) (by decide)
  simpa using h

/-- A string whose character list is empty is the empty string. -/
lemma str_eq_empty_of_toList_nil {s : String} (h : s.toList = []) : s = "" := by
  cases s with
  | mk l =>
      cases l with
      | nil => rfl
      | cons c cs => simp [String.toList] at h

/-- A non-empty needle is never found in an empty haystack. -/
lemma jsIncludes_empty_hay {search : String} (hs : search ≠ "") :
    jsIncludes (lcStr "") (lcStr search) = false := by
  have hne : (lcStr search).toList ≠ [] := by
    show search.toList.map Char.toLower ≠ []
    intro h
    exact hs (str_eq_empty_of_toList_nil (List.map_eq_nil_iff.mp h))
  rw [jsIncludes]
  show isInfixL (lcStr search).toList [] = false
  cases hlist : (lcStr search).toList with
  | nil => exact absurd hlist hne
  | cons c cs => rfl

/-- The `.filter(Boolean).some(...)` search test equals the plain
three-way disjunction when the search box is non-empty. -/
lemma budget_searchOk_iff (p : BudgetItem) (search : String) (hs : search ≠ "") :
    (([p.name, p.brand, p.category].filter (fun t => t != "")).any
        (fun t => jsIncludes (lcStr t) (lcStr search)))
    = (jsIncludes (lcStr p.name) (lcStr search)
        || jsIncludes (lcStr p.brand) (lcStr search)
        || jsIncludes (lcStr p.category) (lcStr search)) := by
  by_cases h1 : p.name = "" <;> by_cases h2 : p.brand = "" <;>
    by_cases h3 : p.category = "" <;>
    simp [h1, h2, h3, jsIncludes_empty_hay hs, Bool.or_assoc]

/-- C7: an item appears in the BudgetSmartphoneDeals `filtered` grid iff
it is among the fetched items and passes the brand filter (or "All"),
the badge filter (or "All"), and the case-insensitive search over
name/brand/category (or the search box is empty); `filtered` is an
order-preserving sublist of the fetched items and is the whole list
under the default filters. -/
theorem budget_filtered_spec (items : List BudgetItem)
    (brand badge search : String) (p : BudgetItem) :
    (p ∈ filteredBudget brand badge search items ↔
      p ∈ items ∧
      (brand = "All" ∨ lcStr p.brand = lcStr brand) ∧
      (badge = "All" ∨ ucStr p.badge = ucStr badge) ∧
      (search = "" ∨ jsIncludes (lcStr p.name) (lcStr search) = true
        ∨ jsIncludes (lcStr p.brand) (lcStr search) = true
        ∨ jsIncludes (lcStr p.category) (lcStr search) = true))
    ∧ (filteredBudget brand badge search items).Sublist items
    ∧ filteredBudget "All" "All" "" items = items := by
  refine ⟨?_, List.filter_sublist _, ?_⟩
  · rw [filteredBudget, List.mem_filter]
    by_cases hs : search = ""
    · subst hs
      simp only [budgetFilterPred, Bool.and_eq_true, Bool.or_eq_true, beq_iff_eq]
      tauto
    · simp only [budgetFilterPred]
      rw [budget_searchOk_iff p search hs]
      simp only [Bool.and_eq_true, Bool.or_eq_true, beq_iff_eq]
      tauto
  · rw [filteredBudget]
    apply List.filter_eq_self.mpr
    intro a _
    simp [budgetFilterPred]

/-- Witness for C7 on a concrete two-item list. -/
theorem budget_filtered_spec_witness :
    (⟨"Redmi 13C", "Xiaomi", "Budget", "OPEN"⟩ : BudgetItem) ∈
      filteredBudget "xiaomi" "All" "redmi"
        [⟨"Redmi 13C", "Xiaomi", "Budget", "OPEN"⟩,
         ⟨"Spark 20", "Tecno", "Budget", "OPEN HOT"⟩] := by
  apply (budget_filtered_spec
      [⟨"Redmi 13C", "Xiaomi", "Budget", "OPEN"⟩,
       ⟨"Spark 20", "Tecno", "Budget", "OPEN HOT"⟩]
      "xiaomi" "All" "redmi" ⟨"Redmi 13C", "Xiaomi", "Budget", "OPEN"⟩).1.mpr
  refine ⟨by simp, Or.inr (by decide), Or.inl rfl, Or.inr (Or.inl (by decide))⟩

/-- C3: the shared Apollo client attaches `Authorization: Bearer <token>`
exactly when localStorage holds a `"wpjwt"` value that parses as JSON
with a non-empty string `authToken`; on a missing key, a parse failure,
a missing `authToken` field or an empty token, the headers pass through
unchanged. -/
theorem apollo_auth_headers (parse : String → Option JVal)
    (store : String → Option String) (headers : String → Option String)
    (raw t : String) (j : JVal) :
    (store "wpjwt" = some raw → raw ≠ "" → parse raw = some j →
        j.field "authToken" = some (JVal.jstr t) → t ≠ "" →
        authLinkHeaders parse store headers
          = fun k => if k = "Authorization" then some ("Bearer " ++ t) else headers k)
    ∧ (store "wpjwt" = none → authLinkHeaders parse store headers = headers)
    ∧ (store "wpjwt" = some raw → parse raw = none →
        authLinkHeaders parse store headers = headers)
    ∧ (store "wpjwt" = some raw → raw ≠ "" → parse raw = some j →
        j.field "authToken" = none → authLinkHeaders parse store headers = headers)
    ∧ (store "wpjwt" = some raw → raw ≠ "" → parse raw = some j →
        j.field "authToken" = some (JVal.jstr "") →
        authLinkHeaders parse store headers = headers) := by
  refine ⟨?_, ?_, ?_, ?_, ?_⟩
  · intro h1 h2 h3 h4 h5
    simp [authLinkHeaders, getAuthToken, h1, h2, h3, h4, JVal.truthy, h5,
      JVal.jsToString]
  · intro h1
    simp [authLinkHeaders, getAuthToken, h1]
  · intro h1 h2
    by_cases hr : raw = "" <;>
      simp [authLinkHeaders, getAuthToken, h1, h2, hr]
  · intro h1 h2 h3 h4
    simp [authLinkHeaders, getAuthToken, h1, h2, h3, h4]
  · intro h1 h2 h3 h4
    simp [authLinkHeaders, getAuthToken, h1, h2, h3, h4, JVal.truthy]

/-- Witness for C3: a stored token is attached, a cleared store is not. -/
theorem apollo_auth_headers_witness :
    authLinkHeaders
        (fun s => if s = "J" then some (JVal.jobj [("authToken", JVal.jstr "tok")]) else none)
        (fun k => if k = "wpjwt" then some "J" else none)
        (fun _ => none)
      = (fun k => if k = "Authorization" then some ("Bearer tok") else none) ∧
    authLinkHeaders
        (fun s => if s = "J" then some (JVal.jobj [("authToken", JVal.jstr "tok")]) else none)
        (fun _ => none)
        (fun _ => none)
      = (fun _ => none) := by
  constructor
  · exact (apollo_auth_headers
        (fun s => if s = "J" then some (JVal.jobj [("authToken", JVal.jstr "tok")]) else none)
        (fun k => if k = "wpjwt" then some "J" else none)
        (fun _ => none) "J" "tok" (JVal.jobj [("authToken", JVal.jstr "tok")])).1
      rfl (by decide) rfl rfl (by decide)
  · exact (apollo_auth_headers
        (fun s => if s = "J" then some (JVal.jobj [("authToken", JVal.jstr "tok")]) else none)
        (fun _ => none)
        (fun _ => none) "J" "tok" (JVal.jobj [("authToken", JVal.jstr "tok")])).2.1 rfl

/-- C4: auth state lives under the single localStorage key `"wpjwt"`:
login writes the JSON object there and nowhere else, every reader is a
function of that entry alone, logout removes exactly that key, and
afterwards `getAccessToken()`/`getUser()` return null. -/
theorem wpjwt_single_key (parse : String → Option JVal) (stringify : JVal → String)
    (store s1 s2 : String → Option String) (tok rtok : String) (user : JVal)
    (k : String) :
    loginPersist stringify store tok rtok user "wpjwt"
        = some (stringify (loginPayload tok rtok user))
    ∧ (k ≠ "wpjwt" → loginPersist stringify store tok rtok user k = store k)
    ∧ (s1 "wpjwt" = s2 "wpjwt" →
        getAuthToken parse s1 = getAuthToken parse s2
        ∧ readJWT parse s1 = readJWT parse s2
        ∧ getAccessToken parse s1 = getAccessToken parse s2
        ∧ getUserH parse s1 = getUserH parse s2)
    ∧ clearAuth store "wpjwt" = none
    ∧ (k ≠ "wpjwt" → clearAuth store k = store k)
    ∧ (parse "null" = some JVal.jnull →
        getAccessToken parse (clearAuth store) = none
        ∧ getUserH parse (clearAuth store) = none) := by
  refine ⟨rfl, ?_, ?_, rfl, ?_, ?_⟩
  · intro hk
    simp [loginPersist, hk]
  · intro h
    refine ⟨?_, ?_, ?_, ?_⟩
    · simp [getAuthToken, h]
    · simp [readJWT, h]
    · simp [getAccessToken, readJWT, h]
    · simp [getUserH, readJWT, h]
  · intro hk
    simp [clearAuth, hk]
  · intro hnull
    constructor
    · simp [getAccessToken, readJWT, clearAuth, hnull, JVal.field]
    · simp [getUserH, readJWT, clearAuth, hnull, JVal.field]

/-- Witness for C4: with a JSON-parse stub honouring `parse "null" = null`,
a cleared store yields no access token and no user. -/
theorem wpjwt_single_key_witness :
    getAccessToken (fun s => if s = "null" then some JVal.jnull else none)
        (clearAuth (fun k => if k = "wpjwt" then some "J" else none)) = none
    ∧ getUserH (fun s => if s = "null" then some JVal.jnull else none)
        (clearAuth (fun k => if k = "wpjwt" then some "J" else none)) = none := by
  exact (wpjwt_single_key (fun s => if s = "null" then some JVal.jnull else none)
      (fun _ => "S") (fun k => if k = "wpjwt" then some "J" else none)
      (fun _ => none) (fun _ => none) "tok" "rtok" JVal.jnull "x").2.2.2.2.2 rfl

/-- Summing non-negative item quantities from a non-negative accumulator
stays non-negative. -/
lemma foldl_itemQty_nonneg (its : List CartEventItem) (acc : Int)
    (hacc : 0 ≤ acc) (hq : ∀ it ∈ its, 0 ≤ itemQty it) :
    0 ≤ its.foldl (fun a it => a + itemQty it) acc := by
  induction its generalizing acc with
  | nil => exact hacc
  | cons it rest ih =>
      exact ih (acc + itemQty it)
        (add_nonneg hacc (hq it (List.mem_cons_self it rest)))
        (fun x hx => hq x (List.mem_cons_of_mem it hx))

/-- One well-formed event step preserves badge non-negativity. -/
lemma headerStep_nonneg {c : Int} (hc : 0 ≤ c) (e : HeaderEvent)
    (hwf : ∀ d, e = HeaderEvent.cartUpdated d → detailWF d) :
    0 ≤ headerStep c e := by
  cases e with
  | logout => exact le_refl 0
  | cartUpdated d =>
      have hd := hwf d rfl
      show 0 ≤ onCartUpdated c d
      rw [onCartUpdated]
      cases hcount : d.count with
      | some n => exact hd.1 n hcount
      | none =>
          cases hitems : d.items with
          | some its =>
              exact foldl_itemQty_nonneg its 0 (le_refl 0)
                (fun it hit => hd.2 its it hitems hit)
          | none =>
              cases hdelta : d.delta with
              | some dl => exact le_max_left 0 (c + dl)
              | none => exact hc

/-- C10: starting from 0, any sequence of well-formed `cart-updated`
events (server counts and quantities non-negative) and logouts keeps the
Header badge non-negative; a `count` payload replaces the badge, an
`items` payload replaces it with the summed quantities, a `delta`
payload is clamped at 0, and logout resets the badge to 0. -/
theorem header_badge_nonneg (evs : List HeaderEvent) (c dl : Int) (d : CartDetail)
    (hwf : ∀ d', HeaderEvent.cartUpdated d' ∈ evs → detailWF d') :
    0 ≤ evs.foldl headerStep 0
    ∧ (∀ n, d.count = some n → onCartUpdated c d = n)
    ∧ (∀ its, d.count = none → d.items = some its →
        onCartUpdated c d = its.foldl (fun a it => a + itemQty it) 0)
    ∧ (d.count = none → d.items = none → d.delta = some dl →
        onCartUpdated c d = max 0 (c + dl) ∧ 0 ≤ onCartUpdated c d)
    ∧ (d.count = none → d.items = none → d.delta = none → onCartUpdated c d = c)
    ∧ headerStep c HeaderEvent.logout = 0 := by
  refine ⟨?_, ?_, ?_, ?_, ?_, rfl⟩
  · have main : ∀ (l : List HeaderEvent) (a : Int), 0 ≤ a →
        (∀ d', HeaderEvent.cartUpdated d' ∈ l → detailWF d') →
        0 ≤ l.foldl headerStep a := by
      intro l
      induction l with
      | nil => intro a ha _; exact ha
      | cons e rest ih =>
          intro a ha hl
          exact ih (headerStep a e)
            (headerStep_nonneg ha e
              (fun d' he => hl d' (he ▸ List.mem_cons_self e rest)))
            (fun d' hd' => hl d' (List.mem_cons_of_mem e hd'))
    exact main evs 0 (le_refl 0) hwf
  · intro n hn
    rw [onCartUpdated, hn]
  · intro its hc hi
    rw [onCartUpdated, hc, hi]
  · intro hc hi hd
    rw [onCartUpdated, hc, hi, hd]
    exact ⟨rfl, le_max_left 0 (c + dl)⟩
  · intro hc hi hd
    rw [onCartUpdated, hc, hi, hd]

/-- Witness for C10 on a concrete event sequence: add 3, a stray −5
delta clamps at 0, a server count of 2 lands at 2. -/
theorem header_badge_nonneg_witness :
    0 ≤ ([HeaderEvent.cartUpdated ⟨none, none, some 3⟩,
          HeaderEvent.cartUpdated ⟨none, none, some (-5)⟩,
          HeaderEvent.cartUpdated ⟨some 2, none, none⟩] : List HeaderEvent).foldl
          headerStep 0 := by
  exact (header_badge_nonneg
      [HeaderEvent.cartUpdated ⟨none, none, some 3⟩,
       HeaderEvent.cartUpdated ⟨none, none, some (-5)⟩,
       HeaderEvent.cartUpdated ⟨some 2, none, none⟩] 0 0 ⟨none, none, none⟩
      (by
        intro d' hd'
        simp only [List.mem_cons, List.not_mem_nil, or_false] at hd'
        rcases hd' with h | h | h <;> injection h with h' <;> subst h'
        · exact ⟨(fun n hn => nomatch hn), (fun its it hi _ => nomatch hi)⟩
        · exact ⟨(fun n hn => nomatch hn), (fun its it hi _ => nomatch hi)⟩
        · exact ⟨(fun n hn => by injection hn with h2; omega),
            (fun its it hi _ => nomatch hi)⟩)).1

/-- C2 counterexample: it is not the case that every handler surfaces a
failed request via a toast — the Cart page's increment handler logs to
the console instead. -/
theorem handler_toast_counterexample :
    ¬ (∀ (h : Handler) (m : Option String),
        hasToastError (runHandler h (Outcome.fail m)) = true) := by
  intro hall
  have := hall Handler.cartInc (some "boom")
  simp [runHandler, hasToastError] at this

/-- C2 (amended): every failing GraphQL request is caught inside its
handler and performs at most one attempt of the failed operation; the
add-to-cart and login handlers surface the error via a toast, while the
Cart page's quantity/remove handlers log it to the console (with a cart
refetch) and show no toast. -/
theorem handler_error_effects (m : Option String) (qty : Int)
    (idf pw : String) :
    (∀ h : Handler, countAttempts (runHandler h (Outcome.fail m)) ≤ 1)
    ∧ (∀ h : Handler, hasToastError (runHandler h (Outcome.fail m)) = true
        ∨ hasConsoleError (runHandler h (Outcome.fail m)) = true)
    ∧ hasToastError (runHandler Handler.laptopsAdd (Outcome.fail m)) = true
    ∧ hasToastError (runHandler (Handler.login idf pw) (Outcome.fail m)) = true
    ∧ hasToastError (runHandler Handler.cartInc (Outcome.fail m)) = false
    ∧ hasToastError (runHandler (Handler.cartDec qty) (Outcome.fail m)) = false
    ∧ hasToastError (runHandler Handler.cartRemove (Outcome.fail m)) = false
    ∧ hasConsoleError (runHandler Handler.cartInc (Outcome.fail m)) = true
    ∧ hasConsoleError (runHandler (Handler.cartDec qty) (Outcome.fail m)) = true
    ∧ hasConsoleError (runHandler Handler.cartRemove (Outcome.fail m)) = true := by
  refine ⟨?_, ?_, ?_, ?_, ?_, ?_, ?_, ?_, ?_, ?_⟩
  · intro h
    cases h <;> simp [runHandler, countAttempts] <;> split <;>
      simp [countAttempts, List.countP_cons]
  · intro h
    cases h <;> simp [runHandler, hasToastError, hasConsoleError] <;> split <;>
      simp [hasToastError, hasConsoleError]
  all_goals
    simp [runHandler, hasToastError, hasConsoleError] <;> split <;> simp

/-- `|| null` is idempotent. -/
lemma orNullStr_idem (x : Option String) :
    orNullStr (orNullStr x) = orNullStr x := by
  cases x with
  | none => rfl
  | some s => by_cases h : s = "" <;> simp [orNullStr, h]

/-- Length after a JS index assignment. -/
lemma jsSetIdx_length (l : List (Option String)) (i : Nat) (v : Option String) :
    (jsSetIdx l i v).length = max (i + 1) l.length := by
  induction l generalizing i with
  | nil =>
      induction i with
      | zero => rfl
      | succ n ih =>
          simp only [jsSetIdx, List.length_cons, List.length_nil, ih]
          omega
  | cons x xs ih =>
      cases i with
      | zero => simp [jsSetIdx]
      | succ n =>
          simp only [jsSetIdx, List.length_cons, List.length_nil, ih]
          omega

/-- Reading back the assigned index. -/
lemma jsSetIdx_getD_self (l : List (Option String)) (i : Nat) (v : Option String) :
    (jsSetIdx l i v).getD i none = v := by
  induction l generalizing i with
  | nil =>
      induction i with
      | zero => rfl
      | succ n ih => simpa [jsSetIdx] using ih
  | cons x xs ih =>
      cases i with
      | zero => rfl
      | succ n => simpa [jsSetIdx] using ih n

/-- Reading any other index is unchanged. -/
lemma jsSetIdx_getD_ne (l : List (Option String)) (i j : Nat) (v : Option String)
    (h : j ≠ i) : (jsSetIdx l i v).getD j none = l.getD j none := by
  induction l generalizing i j with
  | nil =>
      induction i generalizing j with
      | zero =>
          cases j with
          | zero => exact absurd rfl h
          | succ m => simp [jsSetIdx]
      | succ n ih =>
          cases j with
          | zero => rfl
          | succ m => simpa [jsSetIdx] using ih m (fun hc => h (by omega))
  | cons x xs ih =>
      cases i with
      | zero =>
          cases j with
          | zero => exact absurd rfl h
          | succ m => rfl
      | succ n =>
          cases j with
          | zero => rfl
          | succ m => simpa [jsSetIdx] using ih n m (fun hc => h (by omega))

/-- Structural invariant of every reachable pagination state: the page is
at least 1, the bottom of the cursor stack is `null`, and the stack is
long enough to cover the current page. -/
lemma reach_invariant {s : ListState} (hs : Reach s) :
    1 ≤ s.page ∧ s.endCursorStack.getD 0 none = none ∧
      s.page ≤ s.endCursorStack.length := by
  induction hs with
  | init info search ordering => exact ⟨le_refl 1, rfl, by simp⟩
  | next s resp _ ih =>
      obtain ⟨ih1, ih2, ih3⟩ := ih
      by_cases h : s.info.hasNextPage
      · simp only [goNext, h, if_true]
        refine ⟨by omega, ?_, ?_⟩
        · rw [jsSetIdx_getD_ne s.endCursorStack s.page 0 _ (by omega)]
          exact ih2
        · rw [jsSetIdx_length]
          omega
      · have hid : (goNext s resp).1 = s := by simp [goNext, h]
        rw [hid]
        exact ⟨ih1, ih2, ih3⟩
  | prev s resp _ ih =>
      obtain ⟨ih1, ih2, ih3⟩ := ih
      by_cases h : 1 < s.page
      · simp only [goPrev, h, if_true]
        refine ⟨?_, ih2, ?_⟩
        · show 1 ≤ max 1 (s.page - 1)
          omega
        · show max 1 (s.page - 1) ≤ s.endCursorStack.length
          omega
      · have hid : (goPrev s resp).1 = s := by simp [goPrev, h]
        rw [hid]
        exact ⟨ih1, ih2, ih3⟩
  | reset s q o resp _ => exact ⟨le_refl 1, rfl, by simp [resetFilters]⟩

/-- C1: the cursor-stack pagination invariant and transition behaviour of
the listing pages: in every reachable state `page ≥ 1` and
`endCursorStack[0] = null`; the query for page `p` is sent with
`after = endCursorStack[p-1] || null` (`null` on page 1); `goNext` is a
no-op without `hasNextPage` and otherwise pushes `endCursor || null` at
stack index `page` before incrementing the page; `goPrev` is a no-op on
page 1 and otherwise re-queries with `endCursorStack[page-2] || null`;
`goNext` immediately followed by `goPrev` re-issues the query with the
cursor used before the `goNext`; any search/ordering change resets the
page to 1 and the stack to `[null]`. -/
theorem cursor_stack_pagination (s : ListState) (r1 r2 : PageInfo)
    (q o : String) (hs : Reach s) :
    (1 ≤ s.page ∧ s.endCursorStack.getD 0 none = none)
    ∧ queryAfter s = orNullStr (s.endCursorStack.getD (s.page - 1) none)
    ∧ (s.page = 1 → queryAfter s = none)
    ∧ (s.info.hasNextPage = false → goNext s r1 = (s, none))
    ∧ (s.info.hasNextPage = true →
        (goNext s r1).1.page = s.page + 1
        ∧ (goNext s r1).1.endCursorStack.getD s.page none
            = orNullStr s.info.endCursor
        ∧ (goNext s r1).2 = some (orNullStr s.info.endCursor)
        ∧ queryAfter (goNext s r1).1 = orNullStr s.info.endCursor)
    ∧ (s.page = 1 → goPrev s r1 = (s, none))
    ∧ (1 < s.page →
        (goPrev s r1).2
            = some (orNullStr (s.endCursorStack.getD (s.page - 2) none))
        ∧ (goPrev s r1).1.page = s.page - 1)
    ∧ (s.info.hasNextPage = true →
        (goPrev (goNext s r1).1 r2).2 = some (queryAfter s))
    ∧ (resetFilters s q o r1).page = 1
    ∧ (resetFilters s q o r1).endCursorStack = [none] := by
  obtain ⟨hp, h0, hlen⟩ := reach_invariant hs
  refine ⟨⟨hp, h0⟩, rfl, ?_, ?_, ?_, ?_, ?_, ?_, rfl, rfl⟩
  · intro h1
    rw [queryAfter, h1]
    simpa using congrArg orNullStr h0
  · intro hfalse
    simp [goNext, hfalse]
  · intro htrue
    have e1 : (goNext s r1).1.page = s.page + 1 := by simp [goNext, htrue]
    have e2 : (goNext s r1).1.endCursorStack
        = jsSetIdx s.endCursorStack s.page (orNullStr s.info.endCursor) := by
      simp [goNext, htrue]
    have e3 : (goNext s r1).2 = some (orNullStr s.info.endCursor) := by
      simp [goNext, htrue]
    refine ⟨e1, ?_, e3, ?_⟩
    · rw [e2, jsSetIdx_getD_self]
    · rw [queryAfter, e1, e2]
      simp only [Nat.add_sub_cancel]
      rw [jsSetIdx_getD_self, orNullStr_idem]
  · intro h1
    simp [goPrev, h1]
  · intro h1
    have hmax0 : max 0 (s.page - 2) = s.page - 2 := by omega
    have e1 : (goPrev s r1).2
        = some (orNullStr (s.endCursorStack.getD (max 0 (s.page - 2)) none)) := by
      simp only [goPrev, if_pos h1]
    have e2 : (goPrev s r1).1.page = max 1 (s.page - 1) := by
      simp only [goPrev, if_pos h1]
    constructor
    · rw [e1, hmax0]
    · rw [e2]
      omega
  · intro htrue
    have hpage : (goNext s r1).1.page = s.page + 1 := by simp [goNext, htrue]
    have hstack : (goNext s r1).1.endCursorStack
        = jsSetIdx s.endCursorStack s.page (orNullStr s.info.endCursor) := by
      simp [goNext, htrue]
    have hgt : 1 < (goNext s r1).1.page := by omega
    have e1 : (goPrev (goNext s r1).1 r2).2
        = some (orNullStr ((goNext s r1).1.endCursorStack.getD
            (max 0 ((goNext s r1).1.page - 2)) none)) := by
      simp only [goPrev, if_pos hgt]
    rw [e1, hpage, hstack]
    have hidx : max 0 (s.page + 1 - 2) = s.page - 1 := by omega
    rw [hidx, jsSetIdx_getD_ne _ _ _ _ (by omega), queryAfter]

/-- Initial NewIphones/BudgetSmartphoneDeals state used by the C1
witness: freshly mounted, first response has a next page. -/
def witnessInitState : ListState :=
  { page := 1, endCursorStack := [none],
    info := { hasNextPage := true, endCursor := some "c1" },
    search := "", ordering := "" }

/-- Witness for C1: one `goNext` from the freshly mounted page, then
`goPrev`, re-issues the query with the original cursor of page 1. -/
theorem cursor_stack_pagination_witness :
    (goPrev (goNext witnessInitState { hasNextPage := true, endCursor := some "c2" }).1
        { hasNextPage := true, endCursor := some "c1" }).2
      = some (queryAfter witnessInitState) := by
  exact (cursor_stack_pagination witnessInitState
      { hasNextPage := true, endCursor := some "c2" }
      { hasNextPage := true, endCursor := some "c1" } "" ""
      (Reach.init { hasNextPage := true, endCursor := some "c1" } "" "")).2.2.2.2.2.2.2.1 rfl

/-- Soundness of the DB wait loop: a finished wait trace consists only of
probes and sleeps, ends with a successful probe, and witnesses a
reachable DB. -/
lemma waitDb_sound (db : Nat → Bool) (fuel : Nat) :
    ∀ (k : Nat) (w : List BootEv), waitDb db k fuel = some w →
      (∀ e ∈ w, e = BootEv.probe true ∨ e = BootEv.probe false ∨ e = BootEv.sleep)
      ∧ w.getLast? = some (BootEv.probe true)
      ∧ (∃ j, db j = true) := by
  induction fuel with
  | zero => intro k w h; exact absurd h (by simp [waitDb])
  | succ n ih =>
      intro k w h
      by_cases hk : db k
      · rw [waitDb, if_pos hk] at h
        obtain rfl := Option.some_injective _ h.symm
        refine ⟨?_, rfl, ⟨k, hk⟩⟩
        intro e he
        simp only [List.mem_singleton] at he
        exact Or.inl he
      · rw [waitDb, if_neg hk] at h
        obtain ⟨tr, htr, rfl⟩ := Option.map_eq_some'.mp h
        obtain ⟨hmem, hlast, hex⟩ := ih (k + 1) tr htr
        refine ⟨?_, ?_, hex⟩
        · intro e he
          simp only [List.mem_cons] at he
          rcases he with rfl | rfl | he
          · exact Or.inr (Or.inl rfl)
          · exact Or.inr (Or.inr rfl)
          · exact hmem e he
        · cases tr with
          | nil => simp at hlast
          | cons t ts =>
              rw [List.getLast?_cons_cons, List.getLast?_cons_cons]
              exact hlast

/-- If the DB never comes up, the wait loop never finishes. -/
lemma waitDb_stuck (db : Nat → Bool) (hdb : ∀ j, db j = false) :
    ∀ (fuel k : Nat), waitDb db k fuel = none := by
  intro fuel
  induction fuel with
  | zero => intro k; rfl
  | succ n ih =>
      intro k
      rw [waitDb, if_neg (by simp [hdb k]), ih (k + 1)]
      rfl

/-- Membership in the install block. -/
lemma mem_installEvents_iff (env : BootEnv) (e : BootEv) :
    e ∈ installEvents env ↔
      env.installed = false ∧ (e = BootEv.configCreate ∨ e = BootEv.coreInstall) := by
  rw [installEvents]
  cases h : env.installed <;> simp

/-- The option-update block contains only `optionUpdate` events. -/
lemma mem_optionEvents (env : BootEnv) (e : BootEv) (h : e ∈ optionEvents env) :
    ∃ nm, e = BootEv.optionUpdate nm := by
  rw [optionEvents] at h
  rcases hwh : env.wpHome with _ | u <;> rcases hws : env.wpSiteurl with _ | v <;>
      rw [hwh, hws] at h <;> simp at h <;>
    first
      | exact ⟨_, h⟩
      | (rcases h with h | h <;> exact ⟨_, h⟩)

/-- Membership of an activation event in the plugin block. -/
lemma pluginActivate_mem_iff (env : BootEnv) (slug : String) :
    BootEv.pluginActivate slug ∈ pluginEvents env ↔
      slug ∈ env.plugins ∧ env.pluginInstalled slug = true := by
  rw [pluginEvents]
  constructor
  · intro h
    obtain ⟨s, hs, heq⟩ := List.mem_map.mp h
    by_cases hi : env.pluginInstalled s
    · rw [if_pos hi] at heq
      injection heq with h'
      subst h'
      exact ⟨hs, hi⟩
    · rw [if_neg hi] at heq
      exact absurd heq (by intro hc; exact BootEv.noConfusion hc)
  · rintro ⟨hs, hi⟩
    exact List.mem_map.mpr ⟨slug, hs, by rw [if_pos hi]⟩

/-- C9: bootstrap ordering — the script never passes the wait loop
unless a DB probe succeeds (and loops forever otherwise); wp-config
creation and core install happen exactly when no install is detected;
activation is attempted exactly for the listed slugs that are installed;
and the exec of the original entrypoint is the very last step, after the
wait loop, permission fix, install block, option updates, plugin loop
and rewrite flush, in that order. -/
theorem bootstrap_ordering (env : BootEnv) (fuel : Nat) (tr : List BootEv) :
    ((∀ k, env.dbUp k = false) → bootTrace env fuel = none)
    ∧ (bootTrace env fuel = some tr →
        (∃ w, waitDb env.dbUp 0 fuel = some w
          ∧ tr = w ++ [BootEv.fixPerms] ++ installEvents env ++ optionEvents env
              ++ pluginEvents env ++ tailEvents
          ∧ (∀ e ∈ w, e = BootEv.probe true ∨ e = BootEv.probe false ∨ e = BootEv.sleep)
          ∧ w.getLast? = some (BootEv.probe true)
          ∧ (∃ k, env.dbUp k = true))
        ∧ (BootEv.configCreate ∈ tr ↔ env.installed = false)
        ∧ (BootEv.coreInstall ∈ tr ↔ env.installed = false)
        ∧ (∀ slug, BootEv.pluginActivate slug ∈ tr ↔
            slug ∈ env.plugins ∧ env.pluginInstalled slug = true)
        ∧ tr.getLast? = some BootEv.execOrig) := by
  constructor
  · intro hdb
    rw [bootTrace, waitDb_stuck env.dbUp hdb fuel 0]
    rfl
  · intro htr
    rw [bootTrace] at htr
    obtain ⟨w, hw, rfl⟩ := Option.map_eq_some'.mp htr
    obtain ⟨hmem, hlast, hex⟩ := waitDb_sound env.dbUp fuel 0 w hw
    have hwait_no : ∀ e, e ∈ w →
        e ≠ BootEv.configCreate ∧ e ≠ BootEv.coreInstall ∧
        (∀ slug, e ≠ BootEv.pluginActivate slug) := by
      intro e he
      rcases hmem e he with rfl | rfl | rfl <;>
        exact ⟨by intro hc; exact BootEv.noConfusion hc,
               by intro hc; exact BootEv.noConfusion hc,
               fun slug => by intro hc; exact BootEv.noConfusion hc⟩
    refine ⟨⟨w, hw, rfl, hmem, hlast, hex⟩, ?_, ?_, ?_, ?_⟩
    · simp only [List.append_assoc, List.mem_append]
      rw [mem_installEvents_iff]
      constructor
      · rintro (hc | hc | hc | hc | hc | hc)
        · exact absurd rfl (hwait_no _ hc).1
        · simp at hc
        · exact hc.1
        · exact absurd (mem_optionEvents env _ hc) (by rintro ⟨nm, hnm⟩; exact BootEv.noConfusion hnm)
        · rw [pluginEvents] at hc
          obtain ⟨s, _, heq⟩ := List.mem_map.mp hc
          revert heq
          split <;> (intro hc2; exact BootEv.noConfusion hc2)
        · simp [tailEvents] at hc
      · intro hinst
        exact Or.inr (Or.inr (Or.inl ⟨hinst, Or.inl rfl⟩))
    · simp only [List.append_assoc, List.mem_append]
      rw [mem_installEvents_iff]
      constructor
      · rintro (hc | hc | hc | hc | hc | hc)
        · exact absurd rfl (hwait_no _ hc).2.1
        · simp at hc
        · exact hc.1
        · exact absurd (mem_optionEvents env _ hc) (by rintro ⟨nm, hnm⟩; exact BootEv.noConfusion hnm)
        · rw [pluginEvents] at hc
          obtain ⟨s, _, heq⟩ := List.mem_map.mp hc
          revert heq
          split <;> (intro hc2; exact BootEv.noConfusion hc2)
        · simp [tailEvents] at hc
      · intro hinst
        exact Or.inr (Or.inr (Or.inl ⟨hinst, Or.inr rfl⟩))
    · intro slug
      simp only [List.append_assoc, List.mem_append]
      rw [pluginActivate_mem_iff]
      constructor
      · rintro (hc | hc | hc | hc | hc | hc)
        · exact absurd rfl ((hwait_no _ hc).2.2 slug)
        · simp at hc
        · rw [mem_installEvents_iff] at hc
          rcases hc.2 with h | h <;> exact BootEv.noConfusion h
        · exact absurd (mem_optionEvents env _ hc) (by rintro ⟨nm, hnm⟩; exact BootEv.noConfusion hnm)
        · exact hc
        · simp [tailEvents] at hc
      · intro h
        exact Or.inr (Or.inr (Or.inr (Or.inr (Or.inl h))))
    · have htail : (tailEvents : List BootEv).getLast? = some BootEv.execOrig := rfl
      rw [List.append_assoc, List.append_assoc, List.append_assoc, List.append_assoc]
      rw [List.getLast?_append_of_ne_nil, List.getLast?_append_of_ne_nil,
          List.getLast?_append_of_ne_nil, List.getLast?_append_of_ne_nil,
          List.getLast?_append_of_ne_nil, htail] <;> simp [tailEvents]

/-- Environment for the C9 witness: DB up from the second probe, no
existing install, two requested plugins of which one is present. -/
def bootWitnessEnv : BootEnv :=
  { dbUp := fun k => decide (1 ≤ k)
    installed := false
    wpHome := some "http://localhost:8000"
    wpSiteurl := none
    plugins := ["woographql", "missing-plugin"]
    pluginInstalled := fun s => s == "woographql" }

/-- The trace of the witness environment. -/
def bootWitnessTrace : List BootEv :=
  [.probe false, .sleep, .probe true, .fixPerms, .configCreate, .coreInstall,
   .optionUpdate "home", .pluginActivate "woographql", .pluginSkip "missing-plugin",
   .rewriteStructure, .rewriteFlush, .fixPermsFinal, .execOrig]

/-- Witness for C9: on the concrete environment the installed plugin is
activated, the missing one is not, core install runs, and the exec of
the original entrypoint is the last step. -/
theorem bootstrap_ordering_witness :
    BootEv.pluginActivate "woographql" ∈ bootWitnessTrace
    ∧ (BootEv.pluginActivate "missing-plugin" ∈ bootWitnessTrace ↔
        ("missing-plugin" ∈ bootWitnessEnv.plugins ∧
          bootWitnessEnv.pluginInstalled "missing-plugin" = true))
    ∧ BootEv.configCreate ∈ bootWitnessTrace
    ∧ bootWitnessTrace.getLast? = some BootEv.execOrig := by
  have h := (bootstrap_ordering bootWitnessEnv 3 bootWitnessTrace).2 (by decide)
  exact ⟨(h.2.2.2.1 "woographql").mpr (by decide),
         h.2.2.2.1 "missing-plugin",
         h.2.1.mpr (by decide),
         h.2.2.2.2⟩

lemma hexVal_hexDigitByte (n : Nat) (h : n < 16) : hexVal (hexDigitByte n) = some n := by
  have hall : ∀ m, m < 16 → hexVal (hexDigitByte m) = some m := by decide
  exact hall n h

lemma unreserved_facts {b : Nat} (h : isUnreservedByte b = true) :
    b ≠ 37 ∧ b ≠ 43 ∧ b ≠ 38 ∧ b ≠ 61 ∧ b ≠ 63 ∧ b < 256 := by
  simp [isUnreservedByte] at h
  rcases h with h | h | h | h | h | h | h <;> omega

lemma urlDecode_pct (b : Nat) (hb : b < 256) (rest : List Nat) :
    urlDecode (pctEncByte b ++ rest) = b :: urlDecode rest := by
  have h1 : hexVal (hexDigitByte (b / 16)) = some (b / 16) :=
    hexVal_hexDigitByte _ (by omega)
  have h2 : hexVal (hexDigitByte (b % 16)) = some (b % 16) :=
    hexVal_hexDigitByte _ (by omega)
  simp [pctEncByte, urlDecode, h1, h2]
  omega

lemma urlDecode_pass {b : Nat} (h37 : b ≠ 37) (h43 : b ≠ 43) (rest : List Nat) :
    urlDecode (b :: rest) = b :: urlDecode rest := by
  cases rest with
  | nil => simp [urlDecode, h37, h43]
  | cons x xs =>
      cases xs with
      | nil => simp [urlDecode, h37, h43]
      | cons y ys => simp [urlDecode, h37, h43]



lemma urlDecode_rawurlencode (bs : List Nat) (h : ∀ b ∈ bs, b < 256) (rest : List Nat) :
    urlDecode (rawurlencode bs ++ rest) = bs ++ urlDecode rest := by
  induction bs with
  | nil => simp [rawurlencode]
  | cons b tail ih =>
      have hb : b < 256 := h b (List.mem_cons_self b tail)
      have htail : ∀ x ∈ tail, x < 256 := fun x hx => h x (List.mem_cons_of_mem b hx)
      by_cases hu : isUnreservedByte b
      · obtain ⟨h37, h43, -, -, -, -⟩ := unreserved_facts hu
        simp only [rawurlencode, if_pos hu, List.append_assoc, List.singleton_append,
          List.cons_append, List.nil_append]
        rw [urlDecode_pass h37 h43 (rawurlencode tail ++ rest), ih htail]
      · simp only [rawurlencode, if_neg hu, List.append_assoc, List.cons_append,
          List.nil_append]
        rw [urlDecode_pct b hb (rawurlencode tail ++ rest), ih htail]

lemma rawurlencode_no_special (bs : List Nat) :
    ∀ c ∈ rawurlencode bs, c ≠ 38 ∧ c ≠ 61 ∧ c ≠ 63 := by
  induction bs with
  | nil => intro c hc; simp [rawurlencode] at hc
  | cons b tail ih =>
      intro c hc
      rw [rawurlencode] at hc
      rcases List.mem_append.mp hc with hhead | htail
      · by_cases hu : isUnreservedByte b
        · rw [if_pos hu] at hhead
          simp at hhead
          subst hhead
          obtain ⟨-, -, h38, h61, h63, -⟩ := unreserved_facts hu
          exact ⟨h38, h61, h63⟩
        · rw [if_neg hu] at hhead
          simp [pctEncByte] at hhead
          rcases hhead with rfl | rfl | rfl
          · omega
          · have : ∀ n, hexDigitByte n ≠ 38 ∧ hexDigitByte n ≠ 61 ∧ hexDigitByte n ≠ 63 := by
              intro n
              simp [hexDigitByte]
              split <;> omega
            exact this _
          · have : ∀ n, hexDigitByte n ≠ 38 ∧ hexDigitByte n ≠ 61 ∧ hexDigitByte n ≠ 63 := by
              intro n
              simp [hexDigitByte]
              split <;> omega
            exact this _
      · exact ih c htail

lemma rawurlencode_unreserved_id (bs : List Nat)
    (h : ∀ b ∈ bs, isUnreservedByte b = true) : rawurlencode bs = bs := by
  induction bs with
  | nil => rfl
  | cons b tail ih =>
      rw [rawurlencode, if_pos (h b (List.mem_cons_self b tail))]
      rw [ih (fun x hx => h x (List.mem_cons_of_mem b hx))]
      rfl

lemma splitFirst_eq (sep : Nat) (xs ys : List Nat) (h : ∀ c ∈ xs, c ≠ sep) :
    splitFirst sep (xs ++ sep :: ys) = (xs, ys) := by
  induction xs with
  | nil => simp [splitFirst]
  | cons x tail ih =>
      have hx : x ≠ sep := h x (List.mem_cons_self x tail)
      rw [List.cons_append, splitFirst, if_neg hx,
          ih (fun c hc => h c (List.mem_cons_of_mem x hc))]

lemma splitOnElem_no_sep (sep : Nat) (xs : List Nat) (h : ∀ c ∈ xs, c ≠ sep) :
    splitOnElem sep xs = [xs] := by
  induction xs with
  | nil => rfl
  | cons x tail ih =>
      have hx : x ≠ sep := h x (List.mem_cons_self x tail)
      rw [splitOnElem]
      simp only [if_neg hx, ih (fun c hc => h c (List.mem_cons_of_mem x hc))]

lemma splitOnElem_append (sep : Nat) (xs ys : List Nat) (h : ∀ c ∈ xs, c ≠ sep) :
    splitOnElem sep (xs ++ sep :: ys) = xs :: splitOnElem sep ys := by
  induction xs with
  | nil => simp [splitOnElem]
  | cons x tail ih =>
      have hx : x ≠ sep := h x (List.mem_cons_self x tail)
      rw [List.cons_append, splitOnElem]
      simp only [if_neg hx, ih (fun c hc => h c (List.mem_cons_of_mem x hc))]



lemma mem_of_mem_dropWhile {p : Nat → Bool} {l : List Nat} {c : Nat}
    (h : c ∈ l.dropWhile p) : c ∈ l := by
  induction l with
  | nil => simpa using h
  | cons x xs ih =>
      rw [List.dropWhile_cons] at h
      split at h
      · exact List.mem_cons_of_mem x (ih h)
      · exact h

lemma mem_of_mem_hrlGetFrontendUrl {c : Nat} {bs : List Nat}
    (h : c ∈ hrlGetFrontendUrl bs) : c ∈ bs := by
  rw [hrlGetFrontendUrl, phpRtrimSlash] at h
  have h1 := mem_of_mem_dropWhile (List.mem_reverse.mp h)
  have h2 := List.mem_reverse.mp h1
  rw [phpTrim] at h2
  have h3 := List.mem_reverse.mp h2
  have h4 := List.mem_reverse.mp (mem_of_mem_dropWhile h3)
  exact mem_of_mem_dropWhile h4

lemma getParam_key_login (pre key login : List Nat)
    (hpre : ∀ c ∈ pre, c ≠ 63)
    (hk : ∀ b ∈ key, b < 256) (hl : ∀ b ∈ login, b < 256) :
    getParam (strBytes "key")
        (queryOf (pre ++ 63 :: httpBuildQueryKeyLogin key login)) = some key
    ∧ getParam (strBytes "login")
        (queryOf (pre ++ 63 :: httpBuildQueryKeyLogin key login)) = some login := by
  have hq : queryOf (pre ++ 63 :: httpBuildQueryKeyLogin key login)
      = httpBuildQueryKeyLogin key login := by
    rw [queryOf, splitFirst_eq 63 pre _ hpre]
  have hshape : httpBuildQueryKeyLogin key login
      = (strBytes "key=" ++ rawurlencode key)
          ++ 38 :: (strBytes "login=" ++ rawurlencode login) := by
    simp [httpBuildQueryKeyLogin, List.append_assoc]
  have hkb : ∀ c ∈ strBytes "key=", c ≠ 38 := by decide
  have hlb : ∀ c ∈ strBytes "login=", c ≠ 38 := by decide
  have hno38k : ∀ c ∈ strBytes "key=" ++ rawurlencode key, c ≠ 38 := by
    intro c hc
    rcases List.mem_append.mp hc with hh | hh
    · exact hkb c hh
    · exact (rawurlencode_no_special key c hh).1
  have hno38l : ∀ c ∈ strBytes "login=" ++ rawurlencode login, c ≠ 38 := by
    intro c hc
    rcases List.mem_append.mp hc with hh | hh
    · exact hlb c hh
    · exact (rawurlencode_no_special login c hh).1
  have hsplit : splitOnElem 38 (httpBuildQueryKeyLogin key login)
      = [strBytes "key=" ++ rawurlencode key,
         strBytes "login=" ++ rawurlencode login] := by
    rw [hshape, splitOnElem_append 38 _ _ hno38k, splitOnElem_no_sep 38 _ hno38l]
  have hfk : splitFirst 61 (strBytes "key=" ++ rawurlencode key)
      = ([107, 101, 121], rawurlencode key) := by
    rw [show strBytes "key=" ++ rawurlencode key
          = [107, 101, 121] ++ 61 :: rawurlencode key from rfl]
    exact splitFirst_eq 61 _ _ (by decide)
  have hfl : splitFirst 61 (strBytes "login=" ++ rawurlencode login)
      = ([108, 111, 103, 105, 110], rawurlencode login) := by
    rw [show strBytes "login=" ++ rawurlencode login
          = [108, 111, 103, 105, 110] ++ 61 :: rawurlencode login from rfl]
    exact splitFirst_eq 61 _ _ (by decide)
  have hpairs : queryPairs (httpBuildQueryKeyLogin key login)
      = [([107, 101, 121], rawurlencode key),
         ([108, 111, 103, 105, 110], rawurlencode login)] := by
    rw [queryPairs, hsplit]
    simp [hfk, hfl]
  have hdk : urlDecode (rawurlencode key) = key := by
    have := urlDecode_rawurlencode key hk []
    simpa [urlDecode] using this
  have hdl : urlDecode (rawurlencode login) = login := by
    have := urlDecode_rawurlencode login hl []
    simpa [urlDecode] using this
  constructor
  · rw [getParam, hq, hpairs,
      List.find?_cons_of_pos _
        (by exact (by decide : (urlDecode [107, 101, 121] == strBytes "key") = true))]
    simp [hdk]
  · rw [getParam, hq, hpairs,
      List.find?_cons_of_neg _
        (by exact (by decide : ¬(urlDecode [107, 101, 121] == strBytes "login") = true)),
      List.find?_cons_of_pos _
        (by exact
          (by decide : (urlDecode [108, 111, 103, 105, 110] == strBytes "login") = true))]
    simp [hdl]



/-- C8: password-reset round trip — the WordPress plugin builds the
emailed link as `<base stripped of trailing slashes>/reset-password?key=
<key>&login=<login>` with RFC 3986 (`rawurlencode`) query encoding, and
the frontend ResetPassword page recovers exactly that key and login from
its query parameters and passes them unchanged as the mutation
variables; the WooCommerce template link (raw key, `rawurlencode`d
login) round-trips likewise for the alphanumeric reset keys WordPress
generates (unreserved bytes). -/
theorem reset_password_roundtrip (base key login pwd : List Nat)
    (hbase : ∀ c ∈ base, c ≠ 63)
    (hk : ∀ b ∈ key, b < 256) (hl : ∀ b ∈ login, b < 256) :
    resetPageKey (hrlBuildFrontendResetUrl base key login) = key
    ∧ resetPageLogin (hrlBuildFrontendResetUrl base key login) = login
    ∧ resetSubmit key login pwd pwd = some ⟨key, login, pwd⟩
    ∧ ((∀ b ∈ key, isUnreservedByte b = true) →
        resetPageKey (wooResetLink key login) = key
        ∧ resetPageLogin (wooResetLink key login) = login) := by
  have hrp : ∀ c ∈ strBytes "/reset-password", c ≠ 63 := by decide
  have hpre : ∀ c ∈ hrlGetFrontendUrl base ++ strBytes "/reset-password", c ≠ 63 := by
    intro c hc
    rcases List.mem_append.mp hc with h | h
    · exact hbase c (mem_of_mem_hrlGetFrontendUrl h)
    · exact hrp c h
  have hlink : hrlBuildFrontendResetUrl base key login
      = (hrlGetFrontendUrl base ++ strBytes "/reset-password")
          ++ 63 :: httpBuildQueryKeyLogin key login := by
    simp [hrlBuildFrontendResetUrl, List.append_assoc]
  have hmain := getParam_key_login _ key login hpre hk hl
  refine ⟨?_, ?_, ?_, ?_⟩
  · rw [resetPageKey, hlink, hmain.1]
    rfl
  · rw [resetPageLogin, hlink, hmain.2]
    rfl
  · simp [resetSubmit]
  · intro hunres
    have hkey256 : ∀ b ∈ key, b < 256 :=
      fun b hb => (unreserved_facts (hunres b hb)).2.2.2.2.2
    have hwlink : wooResetLink key login
        = strBytes "http://localhost:5173/reset-password"
            ++ 63 :: httpBuildQueryKeyLogin key login := by
      rw [wooResetLink, httpBuildQueryKeyLogin, rawurlencode_unreserved_id key hunres]
      simp [List.append_assoc]
    have hpre2 : ∀ c ∈ strBytes "http://localhost:5173/reset-password", c ≠ 63 := by
      decide
    have h2 := getParam_key_login _ key login hpre2 hkey256 hl
    constructor
    · rw [resetPageKey, hwlink, h2.1]
      rfl
    · rw [resetPageLogin, hwlink, h2.2]
      rfl

/-- Witness for C8 at a concrete base URL, reset key and login (the
login contains a space and a `+`, both of which must survive the
round trip). -/
theorem reset_password_roundtrip_witness :
    resetPageKey (hrlBuildFrontendResetUrl (strBytes "http://localhost:5173/")
        (strBytes "r3setK3y") (strBytes "john doe+1")) = strBytes "r3setK3y"
    ∧ resetPageLogin (hrlBuildFrontendResetUrl (strBytes "http://localhost:5173/")
        (strBytes "r3setK3y") (strBytes "john doe+1")) = strBytes "john doe+1"
    ∧ resetSubmit (strBytes "r3setK3y") (strBytes "john doe+1") (strBytes "pw")
        (strBytes "pw")
      = some ⟨strBytes "r3setK3y", strBytes "john doe+1", strBytes "pw"⟩ := by
  have h := reset_password_roundtrip (strBytes "http://localhost:5173/")
    (strBytes "r3setK3y") (strBytes "john doe+1") (strBytes "pw")
    (by decide) (by decide) (by decide)
  exact ⟨h.1, h.2.1, h.2.2.1⟩

end ReactWP
